import Mathlib

/-!
Verification of the ingestion / normalization / aggregation logic of the
hospital dashboard (src/app.py, src/app2.py) against its specification.

The Python code works on pandas cells holding strings or missing values
(NaN).  A missing cell is modelled as `none : Option String`; a string cell
as `some s`.  The Python string operations used by the code
(`replace`, `strip`, `lower`, `split`, `in`, `isdigit`, `startswith`) are
modelled character-by-character on `String.data`.  Python's `str.isdigit`
and `str.lower` are modelled on the ASCII range, which covers every string
the code manipulates (service names, price cells, specializations).
-/

/-- `leadsList p l` : the character list `p` is an initial segment of `l`. -/
def leadsList : List Char → List Char → Bool
  | [], _ => true
  | _ :: _, [] => false
  | a :: p, b :: l => a == b && leadsList p l

/-- `occursIn p l` : `p` occurs as a contiguous segment of `l`.
Models the Python `in` operator on strings. -/
def occursIn (p : List Char) : List Char → Bool
  | [] => p.isEmpty
  | b :: l => leadsList p (b :: l) || occursIn p l

/-- Python `sub in s` (substring containment). -/
def pyContains (sub s : String) : Bool := occursIn sub.data s.data

/-- Python `p.startswith(s)`-style test, used to state the spec's "starts
with the token From" rule. -/
def pyStarts (p s : String) : Bool := leadsList p.data s.data

/-- ASCII model of Python `str.isdigit` on a single character. -/
def charIsDigit (c : Char) : Bool := 48 ≤ c.toNat && c.toNat ≤ 57

/-- ASCII model of Python `str.lower` on a single character. -/
def charLower (c : Char) : Char :=
  if 65 ≤ c.toNat ∧ c.toNat ≤ 90 then Char.ofNat (c.toNat + 32) else c

/-- Python `s.lower()`. -/
def pyLower (s : String) : String := ⟨s.data.map charLower⟩

/-- Python `s.replace(c, '')` for a one-character pattern: removes every
occurrence of the character. -/
def removeChar (c : Char) (s : String) : String :=
  ⟨s.data.filter (fun x => x != c)⟩

/-- Python `s.strip()`: drop leading and trailing whitespace. -/
def pyStrip (s : String) : String :=
  ⟨((s.data.dropWhile Char.isWhitespace).reverse.dropWhile Char.isWhitespace).reverse⟩

/-- Python `s.isdigit()`: non-empty and every character a digit. -/
def pyIsdigit (s : String) : Bool := !s.data.isEmpty && s.data.all charIsDigit

/-- Python truthiness of a string (`if s:`): non-empty. -/
def pyNonempty (s : String) : Bool := !s.data.isEmpty

/-- Python `s.split(',')` on the character level. -/
def splitComma : List Char → List (List Char)
  | [] => [[]]
  | c :: rest =>
    if c == ',' then [] :: splitComma rest
    else
      match splitComma rest with
      | [] => [[c]]
      | g :: gs => (c :: g) :: gs

/-- `[tok.strip() for tok in s.split(',')]` — the token list a clinician's
raw "Services Offered" text is resolved to (src/app.py line 140,
src/app2.py line 149). Empty tokens are kept, duplicates are kept. -/
def splitTokens (s : String) : List String :=
  (splitComma s.data).map (fun l => pyStrip ⟨l⟩)

/-! ## Price-cell parsing (src/app2.py lines 646-653, 791-810)

The code cleans a cell with
`str(price).replace('£', '').replace(',', '').strip()` and accepts it as a
numeric ("Exact") price iff the cleaned text is non-empty, does not contain
the (case-sensitive) substring `From`, and `price_str.replace('.', '')`
passes `isdigit`.  An accepted cell is then converted with `float`, which
raises `ValueError` when the text has two or more decimal points.  A raise
is modelled as `Except.error ()`; a cell that fails the acceptance test is
`Except.ok none`; an accepted, converted cell is `Except.ok (some q)`.
A missing (NaN) cell passes through `str()` as the text `nan`, which fails
the digit test. -/

/-- `str(price).replace('£', '').replace(',', '').strip()`. -/
def cleanCell (s : String) : String := pyStrip (removeChar ',' (removeChar '£' s))

/-- Number of decimal points in a string. -/
def dotCount (s : String) : ℕ := s.data.count '.'

/-- Value of a digit string read in base 10. -/
def digitsVal (l : List Char) : ℕ := l.foldl (fun n c => 10 * n + (c.toNat - 48)) 0

/-- Value of Python `float(s)` for a string of digits with at most one
decimal point. -/
def floatVal (s : String) : ℚ :=
  let ip := s.data.takeWhile (fun c => c != '.')
  let fp := (s.data.dropWhile (fun c => c != '.')).drop 1
  (digitsVal ip : ℚ) + (digitsVal fp : ℚ) / 10 ^ fp.length

/-- The acceptance test
`price_str and price_str != '' and "From" not in price_str and
price_str.replace('.', '').isdigit()` applied to a cleaned cell. -/
def codeCheck (c : String) : Bool :=
  pyNonempty c && !pyContains "From" c && pyIsdigit (removeChar '.' c)

/-- One price cell as processed by the `canary_prices` loop
(src/app2.py lines 646-653): clean, test, convert.  `Except.error ()`
models the `ValueError` that `float` raises on a multi-dot string. -/
def parseCell (cell : String) : Except Unit (Option ℚ) :=
  let c := cleanCell cell
  if codeCheck c then
    if dotCount c ≤ 1 then Except.ok (some (floatVal c)) else Except.error ()
  else Except.ok none

/-- The list built by `canary_prices.append(float(price_str))` over a column
of cells; a raise anywhere aborts the whole computation (the enclosing
`try` covers the loop). -/
def collectExact : List String → Except Unit (List ℚ)
  | [] => Except.ok []
  | c :: cs =>
    match parseCell c with
    | Except.error _ => Except.error ()
    | Except.ok none => collectExact cs
    | Except.ok (some q) => (collectExact cs).map (fun l => q :: l)

/-- The displayed "Avg Price" metric (src/app2.py lines 652-658):
`some avg` when the collected list is non-empty, `none` (shown as
"Varies") when it is empty or the `except` branch was taken. -/
def avgDisplayed (cells : List String) : Option ℚ :=
  match collectExact cells with
  | Except.error _ => none
  | Except.ok l => if l.isEmpty then none else some (l.sum / (l.length : ℚ))

deriving instance DecidableEq for Except

/-- `floatVal` on a dot-free string is just the digits value. -/
lemma floatVal_no_dot (s : String) (h : s.data.all (fun c => c != '.') = true) :
    floatVal s = digitsVal s.data := by
  unfold floatVal
  rw [List.takeWhile_eq_self_iff.mpr, List.dropWhile_eq_nil_iff.mpr]
  · simp [digitsVal]
  · intro x hx
    exact (List.all_eq_true.mp h) x hx
  · intro x hx
    exact (List.all_eq_true.mp h) x hx

/-! ### Elementary facts about the string model -/

lemma leadsList_iff_append (p : List Char) :
    ∀ l : List Char, leadsList p l = true ↔ ∃ v, l = p ++ v := by
  induction p with
  | nil =>
    intro l
    simp [leadsList]
  | cons a p ih =>
    intro l
    cases l with
    | nil => simp [leadsList]
    | cons b l =>
      simp only [leadsList, Bool.and_eq_true, beq_iff_eq, ih, List.cons_append,
        List.cons.injEq]
      constructor
      · rintro ⟨rfl, v, rfl⟩
        exact ⟨v, rfl, rfl⟩
      · rintro ⟨v, rfl, rfl⟩
        exact ⟨rfl, v, rfl⟩

lemma occursIn_iff_append (p : List Char) :
    ∀ l : List Char, occursIn p l = true ↔ ∃ u v, l = u ++ p ++ v := by
  intro l
  induction l with
  | nil =>
    simp only [occursIn, List.isEmpty_iff]
    constructor
    · rintro rfl
      exact ⟨[], [], rfl⟩
    · rintro ⟨u, v, h⟩
      rcases List.append_eq_nil.mp h.symm with ⟨h1, h2⟩
      exact (List.append_eq_nil.mp h1).2
  | cons b l ih =>
    simp only [occursIn, Bool.or_eq_true, leadsList_iff_append, ih]
    constructor
    · rintro (⟨v, hv⟩ | ⟨u, v, huv⟩)
      · exact ⟨[], v, by simp [hv]⟩
      · exact ⟨b :: u, v, by simp [huv]⟩
    · rintro ⟨u, v, huv⟩
      cases u with
      | nil =>
        exact Or.inl ⟨v, by simpa using huv⟩
      | cons x u =>
        right
        simp only [List.cons_append, List.cons.injEq] at huv
        exact ⟨u, v, huv.2⟩

lemma mem_of_occursIn {p l : List Char} (h : occursIn p l = true) {a : Char}
    (ha : a ∈ p) : a ∈ l := by
  rcases (occursIn_iff_append p l).mp h with ⟨u, v, rfl⟩
  simp [ha]

lemma occursIn_trans {p q l : List Char} (h1 : occursIn p q = true)
    (h2 : occursIn q l = true) : occursIn p l = true := by
  rcases (occursIn_iff_append p q).mp h1 with ⟨u, v, rfl⟩
  rcases (occursIn_iff_append _ l).mp h2 with ⟨u', v', rfl⟩
  exact (occursIn_iff_append p _).mpr ⟨u' ++ u, v ++ v', by simp⟩

lemma occursIn_map (f : Char → Char) {p l : List Char}
    (h : occursIn p l = true) : occursIn (p.map f) (l.map f) = true := by
  rcases (occursIn_iff_append p l).mp h with ⟨u, v, rfl⟩
  exact (occursIn_iff_append _ _).mpr ⟨u.map f, v.map f, by simp⟩

lemma length_filter_mono {α : Type} (l : List α) (p q : α → Bool)
    (h : ∀ x ∈ l, p x = true → q x = true) :
    (l.filter p).length ≤ (l.filter q).length := by
  induction l with
  | nil => simp
  | cons a l ih =>
    have ih' := ih (fun x hx => h x (List.mem_cons_of_mem a hx))
    by_cases hp : p a = true
    · rw [List.filter_cons_of_pos hp, List.filter_cons_of_pos (h a (by simp) hp)]
      simpa using ih'
    · rw [List.filter_cons_of_neg (by simpa using hp)]
      cases hq : q a
      · rw [List.filter_cons_of_neg (by simp [hq])]
        exact ih'
      · rw [List.filter_cons_of_pos hq]
        exact le_trans ih' (by simp)

lemma boolEqOfIff {a b : Bool} (h : a = true ↔ b = true) : a = b := by
  cases a <;> cases b <;> simp_all

/-! ### Characterizing the acceptance test -/

/-- The digit test on the dot-stripped text holds iff every character of the
text is a digit or a decimal point and at least one digit is present. -/
lemma pyIsdigit_removeDot_iff (c : String) :
    pyIsdigit (removeChar '.' c) = true ↔
      ((∀ ch ∈ c.data, ch = '.' ∨ charIsDigit ch = true) ∧
        c.data.any charIsDigit = true) := by
  simp only [pyIsdigit, removeChar, Bool.and_eq_true, Bool.not_eq_true',
    List.isEmpty_eq_false, List.all_eq_true, List.any_eq_true]
  constructor
  · rintro ⟨hne, hall⟩
    constructor
    · intro ch hch
      by_cases hd : ch = '.'
      · exact Or.inl hd
      · exact Or.inr (hall ch (List.mem_filter.mpr ⟨hch, by simpa using hd⟩))
    · rcases List.exists_mem_of_ne_nil _ hne with ⟨ch, hch⟩
      rcases List.mem_filter.mp hch with ⟨hmem, _⟩
      exact ⟨ch, hmem, hall ch hch⟩
  · rintro ⟨hall, ch, hch, hd⟩
    have hchdot : ch ≠ '.' := by
      rintro rfl
      simp [charIsDigit] at hd
    constructor
    · intro hnil
      have : ch ∈ c.data.filter (fun x => x != '.') :=
        List.mem_filter.mpr ⟨hch, by simpa using hchdot⟩
      simp [hnil] at this
    · intro x hx
      rcases List.mem_filter.mp hx with ⟨hmem, hxdot⟩
      rcases hall x hmem with h | h
      · simp [h] at hxdot
      · exact h

/-- A string of digits and dots cannot contain the capital-F text `From`. -/
lemma noFrom_of_digitDot {c : String}
    (h : ∀ ch ∈ c.data, ch = '.' ∨ charIsDigit ch = true) :
    pyContains "From" c = false := by
  rw [Bool.eq_false_iff]
  intro hocc
  have hF : 'F' ∈ c.data := mem_of_occursIn hocc (by decide)
  rcases h 'F' hF with h' | h' <;> simp_all [charIsDigit]

lemma codeCheck_iff (c : String) :
    codeCheck c = true ↔
      ((∀ ch ∈ c.data, ch = '.' ∨ charIsDigit ch = true) ∧
        c.data.any charIsDigit = true) := by
  simp only [codeCheck, Bool.and_eq_true, Bool.not_eq_true']
  constructor
  · rintro ⟨_, hdig⟩
    exact (pyIsdigit_removeDot_iff c).mp hdig
  · intro h
    refine ⟨⟨?_, noFrom_of_digitDot h.1⟩, (pyIsdigit_removeDot_iff c).mpr h⟩
    rcases List.any_eq_true.mp h.2 with ⟨ch, hch, _⟩
    simpa [pyNonempty, List.isEmpty_eq_false] using List.ne_nil_of_mem hch

/-! ### The spec's CurrencyParser (§4.1), for comparison with the code -/

/-- Price qualifier of the spec's data model (§3). -/
inductive PriceQualifier
  | exact
  | fromPrice
  | unavailable
deriving DecidableEq

/-- Typed price value of the spec's data model (§3). -/
structure PriceValue where
  qualifier : PriceQualifier
  amount : Option ℚ
deriving DecidableEq

/-- The spec's "after removing at most one decimal point, consists only of
digits": the text passes `isdigit` once its dots are removed and has at
most one dot. -/
def isNumericStr (c : String) : Bool :=
  pyIsdigit (removeChar '.' c) && decide (dotCount c ≤ 1)

/-- Modelled from the spec (§4.1 CurrencyParser), for comparison with the
inline parsing in src/app2.py: strip the currency symbol, thousands
separators and whitespace; `From`-prefixed (case-insensitive) text is a
From price whose amount is the trailing numeric portion; digits with at
most one decimal point are an Exact price; everything else is
Unavailable. -/
def specCurrencyParse (cell : String) : PriceValue :=
  let c := cleanCell cell
  if pyStarts "from" (pyLower c) then
    let t := pyStrip ⟨c.data.drop 4⟩
    if isNumericStr t then ⟨PriceQualifier.fromPrice, some (floatVal t)⟩
    else ⟨PriceQualifier.fromPrice, none⟩
  else if isNumericStr c then ⟨PriceQualifier.exact, some (floatVal c)⟩
  else ⟨PriceQualifier.unavailable, none⟩

/-- A cell carrying an Exact price in the sense of the spec's parser. -/
def specExact (cell : String) : Bool :=
  decide ((specCurrencyParse cell).qualifier = PriceQualifier.exact)

/-- The Exact amounts of a column of cells, per the spec's parser. -/
def specExactAmounts (cells : List String) : List ℚ :=
  cells.filterMap (fun s =>
    if specExact s then some (floatVal (cleanCell s)) else none)

/-- Mean of a list of amounts, `none` when the list is empty. -/
def specMean (l : List ℚ) : Option ℚ :=
  if l.isEmpty then none else some (l.sum / (l.length : ℚ))

lemma isNumericStr_eq (c : String) :
    isNumericStr c = (codeCheck c && decide (dotCount c ≤ 1)) := by
  apply boolEqOfIff
  simp only [isNumericStr, Bool.and_eq_true]
  constructor
  · rintro ⟨hdig, hdot⟩
    exact ⟨(codeCheck_iff c).mpr ((pyIsdigit_removeDot_iff c).mp hdig), hdot⟩
  · rintro ⟨hcc, hdot⟩
    exact ⟨(pyIsdigit_removeDot_iff c).mpr ((codeCheck_iff c).mp hcc), hdot⟩

/-- A digit character is unchanged by lower-casing. -/
lemma charLower_of_digit {ch : Char} (h : charIsDigit ch = true) :
    charLower ch = ch := by
  simp only [charIsDigit, Bool.and_eq_true, decide_eq_true_eq] at h
  unfold charLower
  rw [if_neg (by omega)]

/-- A numeric cleaned cell cannot start with the (lower-cased) token
`from`. -/
lemma not_from_of_numeric {c : String} (h : isNumericStr c = true) :
    pyStarts "from" (pyLower c) = false := by
  have h' := h
  simp only [isNumericStr, Bool.and_eq_true] at h'
  have hdig := (pyIsdigit_removeDot_iff c).mp h'.1
  rw [Bool.eq_false_iff]
  intro hstart
  rcases (leadsList_iff_append _ _).mp hstart with ⟨v, hv⟩
  cases hd : c.data with
  | nil => rw [pyLower] at hv; simp [hd] at hv
  | cons ch t =>
    rw [pyLower, hd] at hv
    simp only [List.map_cons] at hv
    have hch : charLower ch = 'f' := by
      have := congrArg (fun l => l.headD 'x') hv
      simpa using this
    rcases hdig.1 ch (by simp [hd]) with h' | h'
    · rw [h'] at hch
      simp [charLower] at hch
    · rw [charLower_of_digit h'] at hch
      rw [hch] at h'
      simp [charIsDigit] at h'

lemma specExact_eq (cell : String) :
    specExact cell = isNumericStr (cleanCell cell) := by
  apply boolEqOfIff
  simp only [specExact, decide_eq_true_eq]
  unfold specCurrencyParse
  dsimp only
  by_cases hn : isNumericStr (cleanCell cell) = true
  · simp [not_from_of_numeric hn, hn]
  · by_cases hf : pyStarts "from" (pyLower (cleanCell cell)) = true
    · simp only [hf, if_true]
      constructor
      · intro h
        split at h <;> simp_all
      · intro h
        exact absurd h hn
    · simp [hf, hn]

/-! ### How `parseCell` behaves on each class of input -/

lemma parseCell_of_specExact {cell : String} (h : specExact cell = true) :
    parseCell cell = Except.ok (some (floatVal (cleanCell cell))) := by
  rw [specExact_eq, isNumericStr_eq, Bool.and_eq_true, decide_eq_true_eq] at h
  unfold parseCell
  rw [if_pos h.1, if_pos h.2]

lemma parseCell_of_not_specExact {cell : String} (h : specExact cell = false)
    (hne : parseCell cell ≠ Except.error ()) :
    parseCell cell = Except.ok none := by
  rw [specExact_eq, isNumericStr_eq] at h
  unfold parseCell at hne ⊢
  by_cases hcc : codeCheck (cleanCell cell) = true
  · rw [if_pos hcc] at hne ⊢
    by_cases hdot : dotCount (cleanCell cell) ≤ 1
    · simp [hcc, hdot] at h
    · rw [if_neg hdot] at hne
      exact absurd rfl hne
  · rw [Bool.not_eq_true] at hcc
    rw [if_neg (by simp [hcc])]

lemma parseCell_error_iff (cell : String) :
    parseCell cell = Except.error () ↔
      (codeCheck (cleanCell cell) = true ∧ 2 ≤ dotCount (cleanCell cell)) := by
  unfold parseCell
  dsimp only
  by_cases hcc : codeCheck (cleanCell cell) = true
  · rw [if_pos hcc]
    by_cases hdot : dotCount (cleanCell cell) ≤ 1
    · rw [if_pos hdot]
      simp only [hcc, true_and]
      constructor
      · intro h
        exact absurd h (by simp)
      · intro h
        omega
    · rw [if_neg hdot]
      simp only [hcc, true_and]
      constructor
      · intro _
        omega
      · intro _
        trivial
  · rw [Bool.not_eq_true] at hcc
    simp [hcc]

/-! ### Price-difference table (src/app2.py lines 791-810)

For each row the code cleans both location cells, and when both pass the
acceptance test converts both with `float` and appends a record with the
difference and the rounded percentage difference.  `round(x, 1)` is
modelled as floor-based rounding to one decimal; Python rounds exact
half-way floats to even, which coincides with this model away from exact
`.x5` ties (none of the analyzed values is a tie). -/

/-- `round(x, 1)`. -/
def pyRound1 (q : ℚ) : ℚ := (⌊q * 10 + 1 / 2⌋ : ℚ) / 10

/-- `diff_pct = (diff / orp_price * 100) if orp_price > 0 else 0`. -/
def diffPctOf (c o : ℚ) : ℚ := if 0 < o then (c - o) / o * 100 else 0

/-- One row of `price_diff_data`. -/
structure DiffRow where
  service : String
  canary : ℚ
  orpington : ℚ
  diff : ℚ
  diffPct : ℚ
deriving DecidableEq

/-- One iteration of the `price_diff_data` loop: `ok none` when the row is
skipped, `ok (some _)` when a record is appended, `error` when `float`
raises on an accepted multi-dot cell. -/
def diffRowOf (svc cw orp : String) : Except Unit (Option DiffRow) :=
  let c := cleanCell cw
  let o := cleanCell orp
  if codeCheck c && codeCheck o then
    if dotCount c ≤ 1 ∧ dotCount o ≤ 1 then
      Except.ok (some
        ⟨svc, floatVal c, floatVal o, floatVal c - floatVal o,
          pyRound1 (diffPctOf (floatVal c) (floatVal o))⟩)
    else Except.error ()
  else Except.ok none

/-- The whole `price_diff_data` list over rows `(service, canary cell,
orpington cell)`; a raise anywhere aborts the computation (the enclosing
`try` covers the loop). -/
def priceDiffRows : List (String × String × String) → Except Unit (List DiffRow)
  | [] => Except.ok []
  | (svc, cw, orp) :: rest =>
    match diffRowOf svc cw orp with
    | Except.error _ => Except.error ()
    | Except.ok none => priceDiffRows rest
    | Except.ok (some d) => (priceDiffRows rest).map (fun l => d :: l)

/-- The record the spec (§4.6) expects for a row whose two location cells
are both Exact. -/
def specDiffRow (t : String × String × String) : DiffRow :=
  ⟨t.1, floatVal (cleanCell t.2.1), floatVal (cleanCell t.2.2),
    floatVal (cleanCell t.2.1) - floatVal (cleanCell t.2.2),
    pyRound1 (diffPctOf (floatVal (cleanCell t.2.1)) (floatVal (cleanCell t.2.2)))⟩

/-! ## The price-table state machine (src/app.py lines 394-422)

`Lyca_prices.csv` rows are triples of cells; an empty CSV cell is read by
pandas as NaN, modelled as `none`.  The loop skips rows with a blank first
cell, treats a row whose two price cells are both missing as a category
header (setting `current_category`), and otherwise shows the row as a
service with its two prices, subject to the search filter
(`search_price.lower() not in str(service_name).lower()`). -/

/-- One row of the combined price table. -/
structure PriceRow where
  c0 : Option String
  c1 : Option String
  c2 : Option String
deriving DecidableEq

/-- First cell of a row; only used on rows whose first cell is present. -/
def firstCell (r : PriceRow) : String := r.c0.getD ""

/-- `pd.isna(service_name) or service_name.strip() == ''`. -/
def firstBlank (r : PriceRow) : Bool :=
  match r.c0 with
  | none => true
  | some s => pyStrip s == ""

/-- How the loop classifies a row. -/
inductive RowKind
  | skipped
  | header
  | data
deriving DecidableEq

/-- Row classification: skip blank-named rows; a row is a category header
iff both price cells are missing (`pd.isna(row.iloc[1]) and
pd.isna(row.iloc[2])`); every other row is a data row. -/
def classifyRow (r : PriceRow) : RowKind :=
  if firstBlank r then RowKind.skipped
  else if r.c1.isNone && r.c2.isNone then RowKind.header
  else RowKind.data

/-- A service row as displayed: the category in force, the service name and
the two raw price cells. -/
structure PriceEntry where
  category : Option String
  service : String
  canary : Option String
  orpington : Option String
deriving DecidableEq

/-- The search filter keeps a data row iff the search box is empty or the
lower-cased search text occurs in the lower-cased service name. -/
def searchKeeps (search name : String) : Bool :=
  search == "" || pyContains (pyLower search) (pyLower name)

/-- The `current_category` state machine of the Pricing page: traverse the
rows in order, remembering the most recent header's first cell and
emitting one entry per kept data row. -/
def parseRows (search : String) : List PriceRow → Option String → List PriceEntry
  | [], _ => []
  | r :: rs, cat =>
    match classifyRow r with
    | RowKind.skipped => parseRows search rs cat
    | RowKind.header => parseRows search rs (some (firstCell r))
    | RowKind.data =>
      if searchKeeps search (firstCell r) then
        ⟨cat, firstCell r, r.c1, r.c2⟩ :: parseRows search rs cat
      else parseRows search rs cat

/-- One transition of the category state. -/
def stepCat (cat : Option String) (r : PriceRow) : Option String :=
  if classifyRow r = RowKind.header then some (firstCell r) else cat

/-- The category in force after a list of rows: the first cell of the most
recently seen header row, or the initial state if no header occurred. -/
def lastHeaderCat (cat : Option String) (rows : List PriceRow) : Option String :=
  rows.foldl stepCat cat

/-- Row used for out-of-range indices in `specEntries`; never reached. -/
def defaultRow : PriceRow := ⟨none, none, none⟩

/-- The entry the spec expects at row index `i`: `some` entry when row `i`
is a kept data row, tagged with the category of the most recently seen
header among the rows before it; `none` otherwise. -/
def specEntryAt (search : String) (rows : List PriceRow) (cat : Option String)
    (i : ℕ) : Option PriceEntry :=
  let r := rows.getD i defaultRow
  if classifyRow r = RowKind.data ∧ searchKeeps search (firstCell r) = true then
    some ⟨lastHeaderCat cat (rows.take i), firstCell r, r.c1, r.c2⟩
  else none

/-- The spec's description of the parse (§4.2 and the §3 PriceEntry
invariant): the entries are exactly the kept data rows, each tagged with
the category of the most recently seen header row above it in source
order. -/
def specEntries (search : String) (rows : List PriceRow) (cat : Option String) :
    List PriceEntry :=
  (List.range rows.length).filterMap (specEntryAt search rows cat)

/-! ## Service counts and coverage

A clinician's mapping row is represented by its raw "Services Offered"
text.  `mappedRows` drops the sentinel rows
(`mapping_df["Services Offered"] != "No Match"`). -/

/-- The mapped rows: every row whose raw text is not the sentinel. -/
def mappedRows (rows : List String) : List String :=
  rows.filter (fun r => r != "No Match")

/-- Clinician count per service on the Services page of src/app2.py
(lines 462-467): `if service in row["Services Offered"]` over the mapped
rows — case-sensitive substring containment. -/
def doctorCountApp2 (rows : List String) (service : String) : ℕ :=
  ((mappedRows rows).filter (fun r => pyContains service r)).length

/-- Clinician count per service on the Services page of src/app.py
(line 276): `str.contains(service, case=False, na=False)` over all mapping
rows (missing text counts as no match).  pandas treats the service as a
regular expression; for the catalog's service names, which contain no
regex metacharacters, this is case-insensitive substring containment, as
modelled here. -/
def doctorCountApp (rows : List (Option String)) (service : String) : ℕ :=
  (rows.filter (fun r =>
    match r with
    | none => false
    | some t => pyContains (pyLower service) (pyLower t))).length

/-- `service_list`: every comma-token of every mapped row, in order, with
multiplicity (src/app2.py lines 958-961). -/
def serviceListAll (rows : List String) : List String :=
  (mappedRows rows).flatMap splitTokens

/-- `pd.Series(service_list).value_counts()[service]`: the number of
occurrences of the token. -/
def tokenCount (rows : List String) (service : String) : ℕ :=
  (serviceListAll rows).count service

/-- The Coverage % column (src/app2.py lines 966-969):
`(count / total_clinicians * 100).round(1)` where `total_clinicians =
len(clinicians_df)`. -/
def coveragePct (rows : List String) (total : ℕ) (service : String) : ℚ :=
  pyRound1 ((tokenCount rows service : ℚ) * 100 / (total : ℚ))

/-- Modelled from the spec (§4.3/§4.6): the number of clinicians whose
resolved service membership — the comma-split, trimmed token list —
contains the service as a token. -/
def specClinicianCount (rows : List String) (service : String) : ℕ :=
  ((mappedRows rows).filter (fun r => decide (service ∈ splitTokens r))).length

/-! ## The department classifier (src/app2.py lines 991-1018,
src/app.py lines 552-579) -/

/-- `any(word in spec_lower for word in words)`. -/
def anyKeyword (words : List String) (s : String) : Bool :=
  words.any (fun w => pyContains w s)

/-- `categorize_specialization`, translated clause by clause. -/
def categorize_specialization (spec : String) : String :=
  let spec_lower := pyLower spec
  if anyKeyword ["cardio", "heart"] spec_lower then "Cardiology"
  else if anyKeyword ["ortho", "bone", "joint", "knee", "hip", "spine"] spec_lower then
    "Orthopaedics"
  else if anyKeyword ["gastro", "hepato", "bowel"] spec_lower then "Gastroenterology"
  else if anyKeyword ["breast", "oncoplastic"] spec_lower then "Breast Care"
  else if anyKeyword ["dermat", "skin"] spec_lower then "Dermatology"
  else if anyKeyword ["ent", "ear", "nose", "throat"] spec_lower then "ENT"
  else if anyKeyword ["neuro", "brain"] spec_lower then "Neurology/Neurosurgery"
  else if anyKeyword ["gynae", "obstet", "women"] spec_lower then "Women\x27s Health"
  else if anyKeyword ["physio", "therapy"] spec_lower then "Physiotherapy"
  else if anyKeyword ["gp", "general practice", "practitioner"] spec_lower then
    "General Practice"
  else if anyKeyword ["urol", "kidney", "renal"] spec_lower then "Urology/Renal"
  else if anyKeyword ["plastic", "aesthetic", "cosmetic"] spec_lower then
    "Plastic Surgery"
  else "Other Specialties"

/-- The spec's canonical rule table (§4.4), in its listed order. -/
def deptRules : List (List String × String) :=
  [(["cardio", "heart"], "Cardiology"),
   (["ortho", "bone", "joint", "knee", "hip", "spine"], "Orthopaedics"),
   (["gastro", "hepato", "bowel"], "Gastroenterology"),
   (["breast", "oncoplastic"], "Breast Care"),
   (["dermat", "skin"], "Dermatology"),
   (["ent", "ear", "nose", "throat"], "ENT"),
   (["neuro", "brain"], "Neurology/Neurosurgery"),
   (["gynae", "obstet", "women"], "Women\x27s Health"),
   (["physio", "therapy"], "Physiotherapy"),
   (["gp", "general practice", "practitioner"], "General Practice"),
   (["urol", "kidney", "renal"], "Urology/Renal"),
   (["plastic", "aesthetic", "cosmetic"], "Plastic Surgery")]

/-- The thirteen department labels of the spec's closed set (§3). -/
def departmentLabels : List String :=
  ["Cardiology", "Orthopaedics", "Gastroenterology", "Breast Care",
   "Dermatology", "ENT", "Neurology/Neurosurgery", "Women\x27s Health",
   "Physiotherapy", "General Practice", "Urology/Renal", "Plastic Surgery",
   "Other Specialties"]

/-- Modelled from the spec (§4.4): lower-case the input, return the first
matching rule's department, else "Other Specialties". -/
def specClassify (spec : String) : String :=
  ((deptRules.find? (fun p => anyKeyword p.1 (pyLower spec))).map Prod.snd).getD
    "Other Specialties"

/-! ## Claim theorems -/

/-- C1: for every price-table row whose first cell is non-blank, the row is
classified as a category header iff both location-price cells are empty
(missing); a row with exactly one missing price cell — in either position —
is classified as a data row, never as a header. -/
theorem header_iff_both_price_cells_missing :
    ∀ r : PriceRow, firstBlank r = false →
      ((classifyRow r = RowKind.header) ↔ (r.c1 = none ∧ r.c2 = none)) ∧
      (r.c1 = none → r.c2 ≠ none → classifyRow r = RowKind.data) ∧
      (r.c1 ≠ none → r.c2 = none → classifyRow r = RowKind.data) := by
  intro r h
  unfold classifyRow
  cases hc1 : r.c1 <;> cases hc2 : r.c2 <;> simp_all

/-- Witness for C1: a row with a service name, a missing Canary-Wharf price
and a present Orpington price is a data row. -/
theorem header_iff_both_price_cells_missing_witness :
    classifyRow ⟨some "Head MRI", none, some "£450"⟩ = RowKind.data :=
  (header_iff_both_price_cells_missing ⟨some "Head MRI", none, some "£450"⟩
    (by decide)).2.1 rfl (by decide)

/-- C5 counterexample: the app2.py Services-page count is case-sensitive:
for the catalog service "mri" and a clinician offering "MRI scan" the
claimed case-insensitive containment counts 1, but the code counts 0. -/
theorem doctor_count_case_mismatch :
    doctorCountApp2 ["MRI scan"] "mri" = 0 ∧
      doctorCountApp [some "MRI scan"] "mri" = 1 := by
  exact ⟨by decide, by decide⟩

/-- C5 (amended): both doctor counts test substring containment of the
service name in the raw text (case-insensitively in app.py,
case-sensitively in app2.py), not exact token membership; hence every
clinician counted for a longer service name is also counted for any
service name contained in it, and a clinician offering only "Head MRI" is
counted for "MRI" even though "MRI" is not one of their tokens. -/
theorem doctor_count_substring_monotone :
    (∀ (rows : List String) (s l : String), occursIn s.data l.data = true →
        doctorCountApp2 rows l ≤ doctorCountApp2 rows s) ∧
    (∀ (rows : List (Option String)) (s l : String), occursIn s.data l.data = true →
        doctorCountApp rows l ≤ doctorCountApp rows s) ∧
    doctorCountApp2 ["Head MRI"] "MRI" = 1 ∧
    (splitTokens "Head MRI").contains "MRI" = false := by
  refine ⟨?_, ?_, by decide, by decide⟩
  · intro rows s l h
    exact length_filter_mono _ _ _ (fun r _ hr => occursIn_trans h hr)
  · intro rows s l h
    apply length_filter_mono
    intro r _ hr
    cases r with
    | none => simp at hr
    | some t => exact occursIn_trans (occursIn_map charLower h) hr

/-- Witness for C5 (amended): "MRI" occurs in "Head MRI", so the count for
"Head MRI" is bounded by the count for "MRI". -/
theorem doctor_count_substring_monotone_witness :
    doctorCountApp2 ["Head MRI"] "Head MRI" ≤ doctorCountApp2 ["Head MRI"] "MRI" :=
  doctor_count_substring_monotone.1 ["Head MRI"] "MRI" "Head MRI" (by decide)

lemma find_rule_cons (p : List String × String) (l : List (List String × String))
    (s d : String) :
    (((p :: l).find? (fun q => anyKeyword q.1 s)).map Prod.snd).getD d
      = if anyKeyword p.1 s then p.2
        else ((l.find? (fun q => anyKeyword q.1 s)).map Prod.snd).getD d := by
  cases h : anyKeyword p.1 s
  · rw [List.find?_cons_of_neg _ (by simp [h])]
    simp [h]
  · rw [List.find?_cons_of_pos _ (by simp [h])]
    simp [h]

/-- C7: the classifier is a total deterministic function agreeing with the
spec's ordered rule table — lower-case the input, return the department of
the first rule whose keyword set matches, else "Other Specialties"; its
range is the thirteen fixed labels; and "Cardiology Consultant" maps to
Cardiology by the first rule. -/
theorem categorize_specialization_first_match :
    (∀ s : String, categorize_specialization s = specClassify s) ∧
    (∀ s : String, categorize_specialization s ∈ departmentLabels) ∧
    categorize_specialization "Cardiology Consultant" = "Cardiology" := by
  have heq : ∀ s : String, categorize_specialization s = specClassify s := by
    intro s
    unfold specClassify deptRules
    rw [find_rule_cons, find_rule_cons, find_rule_cons, find_rule_cons,
      find_rule_cons, find_rule_cons, find_rule_cons, find_rule_cons,
      find_rule_cons, find_rule_cons, find_rule_cons, find_rule_cons]
    rfl
  refine ⟨heq, ?_, by decide⟩
  intro s
  rw [heq s]
  unfold specClassify
  cases h : deptRules.find? (fun p => anyKeyword p.1 (pyLower s)) with
  | none => simp [departmentLabels]
  | some p =>
    have hp : p ∈ deptRules := List.mem_of_find?_eq_some h
    simp only [Option.map_some', Option.getD_some]
    fin_cases hp <;> decide

/-- C10: keywords are matched by raw substring containment in the
lower-cased specialization, with no word boundaries; any specialization
matching none of the first five rules whose lower-cased text contains
"ent" — also inside a longer word such as "dental" — is classified ENT. -/
theorem ent_matched_by_raw_substring :
    ∀ s : String,
      anyKeyword ["cardio", "heart"] (pyLower s) = false →
      anyKeyword ["ortho", "bone", "joint", "knee", "hip", "spine"] (pyLower s) = false →
      anyKeyword ["gastro", "hepato", "bowel"] (pyLower s) = false →
      anyKeyword ["breast", "oncoplastic"] (pyLower s) = false →
      anyKeyword ["dermat", "skin"] (pyLower s) = false →
      pyContains "ent" (pyLower s) = true →
      categorize_specialization s = "ENT" := by
  intro s h1 h2 h3 h4 h5 h6
  unfold categorize_specialization
  dsimp only
  rw [h1, h2, h3, h4, h5]
  have h7 : anyKeyword ["ent", "ear", "nose", "throat"] (pyLower s) = true := by
    simp [anyKeyword, h6]
  rw [h7]
  simp

/-- Witness for C10: "Dental Surgery" matches none of the first five rules
but contains "ent" inside "dental", so it is classified ENT. -/
theorem ent_matched_by_raw_substring_witness :
    categorize_specialization "Dental Surgery" = "ENT" :=
  ent_matched_by_raw_substring "Dental Surgery" (by decide) (by decide)
    (by decide) (by decide) (by decide) (by decide)

/-- The condition under which the accepted-then-converted cell raises:
every character a digit or a dot, at least one digit, at least two dots. -/
def raisesFlag (c : String) : Bool :=
  c.data.all (fun ch => ch == '.' || charIsDigit ch) &&
    c.data.any charIsDigit && decide (2 ≤ dotCount c)

lemma raisesFlag_iff (c : String) :
    raisesFlag c = true ↔ (codeCheck c = true ∧ 2 ≤ dotCount c) := by
  simp only [raisesFlag, Bool.and_eq_true, decide_eq_true_eq, List.all_eq_true,
    Bool.or_eq_true, beq_iff_eq, codeCheck_iff]

/-- C2 counterexample: for the cell "9.9.9" the claimed parser returns
Unavailable with no amount, but the code's parse raises (the text passes
the digit test once all dots are removed, then `float` fails). -/
theorem double_dot_not_unavailable :
    parseCell "9.9.9" = Except.error () ∧
      specCurrencyParse "9.9.9" = ⟨PriceQualifier.unavailable, none⟩ :=
  ⟨by decide, by decide⟩

/-- C2 (amended): the code's cell parse yields an Exact amount exactly when
the cleaned text consists of digits with at most one decimal point; it
raises when the cleaned text is made of digits and dots with at least one
digit and two or more dots; every other cell — in particular any cell
containing the case-sensitive substring "From", from which no amount is
ever extracted — contributes nothing. -/
theorem parseCell_characterization :
    ∀ cell : String,
      (parseCell cell =
        (if isNumericStr (cleanCell cell) then
          Except.ok (some (floatVal (cleanCell cell)))
        else if raisesFlag (cleanCell cell) then Except.error ()
        else Except.ok none)) ∧
      (pyContains "From" (cleanCell cell) = true →
        parseCell cell = Except.ok none) := by
  intro cell
  constructor
  · by_cases hcc : codeCheck (cleanCell cell) = true
    · by_cases hdot : dotCount (cleanCell cell) ≤ 1
      · rw [if_pos (by rw [isNumericStr_eq]; simp [hcc, hdot])]
        unfold parseCell
        rw [if_pos hcc, if_pos hdot]
      · rw [if_neg (by rw [isNumericStr_eq]; simp [hdot]),
          if_pos ((raisesFlag_iff _).mpr ⟨hcc, by omega⟩)]
        unfold parseCell
        rw [if_pos hcc, if_neg hdot]
    · rw [if_neg (by rw [isNumericStr_eq]; simp [hcc]),
        if_neg (by
          intro hr
          exact hcc ((raisesFlag_iff _).mp hr).1)]
      unfold parseCell
      rw [if_neg hcc]
  · intro hFrom
    have hcc : codeCheck (cleanCell cell) = false := by
      unfold codeCheck
      rw [hFrom]
      simp
    unfold parseCell
    rw [if_neg (by simp [hcc])]

/-- Witness for C2 (amended): a cell containing "From" contributes no
amount. -/
theorem parseCell_characterization_witness :
    parseCell "From £5" = Except.ok none :=
  (parseCell_characterization "From £5").2 (by decide)

/-- A raising cell anywhere in a column aborts the whole collection. -/
lemma collectExact_error {cells : List String} {c : String} (hm : c ∈ cells)
    (he : parseCell c = Except.error ()) :
    collectExact cells = Except.error () := by
  induction cells with
  | nil => simp at hm
  | cons a cs ih =>
    rcases List.mem_cons.mp hm with rfl | hmem
    · unfold collectExact
      rw [he]
    · unfold collectExact
      cases ha : parseCell a with
      | error e => rfl
      | ok o =>
        cases o with
        | none => exact ih hmem
        | some q => rw [ih hmem]; rfl

/-- C8 counterexample: the cell "1.2.3" makes the inline parse raise
instead of degrading to Unavailable. -/
theorem parse_raises_on_multi_dot : parseCell "1.2.3" = Except.error () := by
  decide

/-- C8 (amended): the inline parse raises precisely on cells whose cleaned
text is digits-and-dots with at least one digit and two or more decimal
points; such a raise is caught by the surrounding `try`, which degrades the
whole per-category metric to "Varies" rather than excluding the single
cell. -/
theorem parse_error_never_degrades :
    ∀ cell : String,
      (parseCell cell = Except.error () ↔ raisesFlag (cleanCell cell) = true) ∧
      (∀ cells : List String, cell ∈ cells → parseCell cell = Except.error () →
        avgDisplayed cells = none) := by
  intro cell
  constructor
  · rw [parseCell_error_iff, raisesFlag_iff]
  · intro cells hm he
    unfold avgDisplayed
    rw [collectExact_error hm he]

/-- Witness for C8 (amended): "7.7.7" raises and makes the whole average
degrade to "Varies". -/
theorem parse_error_never_degrades_witness :
    parseCell "7.7.7" = Except.error () ∧ avgDisplayed ["7.7.7"] = none := by
  have h := parse_error_never_degrades "7.7.7"
  have he : parseCell "7.7.7" = Except.error () := h.1.mpr (by decide)
  exact ⟨he, h.2 ["7.7.7"] (by simp) he⟩

lemma dot_le_one_of_no_error {cell : String}
    (hne : parseCell cell ≠ Except.error ())
    (hcc : codeCheck (cleanCell cell) = true) :
    dotCount (cleanCell cell) ≤ 1 := by
  by_contra h
  exact hne ((parseCell_error_iff cell).mpr ⟨hcc, by omega⟩)

lemma specExact_of_cc {cell : String}
    (hcc : codeCheck (cleanCell cell) = true)
    (hd : dotCount (cleanCell cell) ≤ 1) : specExact cell = true := by
  rw [specExact_eq, isNumericStr_eq]
  simp [hcc, hd]

lemma cc_of_specExact {cell : String} (h : specExact cell = true) :
    codeCheck (cleanCell cell) = true ∧ dotCount (cleanCell cell) ≤ 1 := by
  rw [specExact_eq, isNumericStr_eq, Bool.and_eq_true, decide_eq_true_eq] at h
  exact h

/-- When no cell of a column raises, the collected list is exactly the
Exact-qualifier amounts. -/
lemma collectExact_of_no_error :
    ∀ cells : List String, (∀ c ∈ cells, parseCell c ≠ Except.error ()) →
      collectExact cells = Except.ok (specExactAmounts cells) := by
  intro cells
  induction cells with
  | nil => intro _; rfl
  | cons c cs ih =>
    intro h
    have hc := h c (List.mem_cons_self c cs)
    have hcs := ih (fun x hx => h x (List.mem_cons_of_mem c hx))
    unfold collectExact
    cases hs : specExact c with
    | false =>
      rw [parseCell_of_not_specExact hs hc]
      unfold specExactAmounts
      rw [List.filterMap_cons]
      simp only [hs, Bool.false_eq_true, if_false]
      exact hcs
    | true =>
      rw [parseCell_of_specExact hs]
      unfold specExactAmounts
      rw [List.filterMap_cons]
      simp only [hs, if_true]
      rw [hcs]
      rfl

lemma diffRowOf_of_no_error {svc cw orp : String}
    (h1 : parseCell cw ≠ Except.error ()) (h2 : parseCell orp ≠ Except.error ()) :
    diffRowOf svc cw orp =
      (if (specExact cw && specExact orp) = true then
        Except.ok (some (specDiffRow (svc, cw, orp)))
      else Except.ok none) := by
  unfold diffRowOf
  dsimp only
  by_cases hb : (codeCheck (cleanCell cw) && codeCheck (cleanCell orp)) = true
  · rw [if_pos hb]
    rw [Bool.and_eq_true] at hb
    have hd1 := dot_le_one_of_no_error h1 hb.1
    have hd2 := dot_le_one_of_no_error h2 hb.2
    rw [if_pos ⟨hd1, hd2⟩,
      if_pos (by rw [Bool.and_eq_true]
                 exact ⟨specExact_of_cc hb.1 hd1, specExact_of_cc hb.2 hd2⟩)]
    rfl
  · rw [if_neg hb]
    rw [if_neg (fun hboth => by
      rw [Bool.and_eq_true] at hboth
      exact hb (by
        rw [Bool.and_eq_true]
        exact ⟨(cc_of_specExact hboth.1).1, (cc_of_specExact hboth.2).1⟩))]

/-- When no cell raises, the difference table holds exactly the rows where
both locations are Exact. -/
lemma priceDiffRows_of_no_error :
    ∀ rows : List (String × String × String),
      (∀ t ∈ rows, parseCell t.2.1 ≠ Except.error () ∧
        parseCell t.2.2 ≠ Except.error ()) →
      priceDiffRows rows =
        Except.ok ((rows.filter
          (fun t => specExact t.2.1 && specExact t.2.2)).map specDiffRow) := by
  intro rows
  induction rows with
  | nil => intro _; rfl
  | cons t rest ih =>
    intro h
    obtain ⟨svc, cw, orp⟩ := t
    have ht := h _ (List.mem_cons_self _ _)
    have hrest := ih (fun x hx => h x (List.mem_cons_of_mem _ hx))
    unfold priceDiffRows
    rw [diffRowOf_of_no_error ht.1 ht.2]
    by_cases hx : (specExact cw && specExact orp) = true
    · rw [if_pos hx]
      dsimp only
      rw [hrest]
      simp [List.filter_cons, hx, Except.map]
    · rw [if_neg hx]
      dsimp only
      rw [hrest]
      simp [List.filter_cons, hx]

/-- C3 (amended): provided no cell raises — no cleaned cell is a
digits-and-dots text with two or more dots — the collected per-location
list is exactly the Exact-qualifier amounts (From and Unavailable cells
excluded), the displayed average is their mean, and the difference table
holds exactly the rows whose two location cells are both Exact. -/
theorem avg_and_diff_use_exact_only :
    (∀ cells : List String, (∀ c ∈ cells, parseCell c ≠ Except.error ()) →
        collectExact cells = Except.ok (specExactAmounts cells) ∧
        avgDisplayed cells = specMean (specExactAmounts cells)) ∧
    (∀ rows : List (String × String × String),
        (∀ t ∈ rows, parseCell t.2.1 ≠ Except.error () ∧
          parseCell t.2.2 ≠ Except.error ()) →
        priceDiffRows rows =
          Except.ok ((rows.filter
            (fun t => specExact t.2.1 && specExact t.2.2)).map specDiffRow)) := by
  constructor
  · intro cells h
    have hc := collectExact_of_no_error cells h
    refine ⟨hc, ?_⟩
    unfold avgDisplayed specMean
    rw [hc]
  · exact priceDiffRows_of_no_error

/-- Witness for C3 (amended): a column with one Exact cell, an empty cell,
a From cell and a placeholder, and a difference row with two Exact cells. -/
theorem avg_and_diff_use_exact_only_witness :
    collectExact ["£500", "", "From £100", "abc"] =
        Except.ok (specExactAmounts ["£500", "", "From £100", "abc"]) ∧
      priceDiffRows [("S", "£500", "£450")] =
        Except.ok (([("S", "£500", "£450")].filter
          (fun t => specExact t.2.1 && specExact t.2.2)).map specDiffRow) :=
  ⟨(avg_and_diff_use_exact_only.1 _ (by decide)).1,
   avg_and_diff_use_exact_only.2 _ (by decide)⟩

lemma floatVal_eq_digits (s : String) (n : ℕ)
    (h1 : s.data.all (fun c => c != '.') = true)
    (h2 : digitsVal s.data = n) : floatVal s = (n : ℚ) := by
  rw [floatVal_no_dot s h1, h2]

/-- Unfolding `specEntries` over the first row: the head entry (if the row
is a kept data row) uses the incoming category, and the tail is the spec
parse of the remaining rows with the stepped category. -/
lemma specEntries_cons (search : String) (r : PriceRow) (rs : List PriceRow)
    (cat : Option String) :
    specEntries search (r :: rs) cat =
      (if classifyRow r = RowKind.data ∧ searchKeeps search (firstCell r) = true
        then [(⟨cat, firstCell r, r.c1, r.c2⟩ : PriceEntry)] else []) ++
        specEntries search rs (stepCat cat r) := by
  have hsucc : (specEntryAt search (r :: rs) cat) ∘ Nat.succ
      = specEntryAt search rs (stepCat cat r) := rfl
  by_cases hc : classifyRow r = RowKind.data ∧ searchKeeps search (firstCell r) = true
  · rw [if_pos hc]
    unfold specEntries
    rw [List.length_cons, List.range_succ_eq_map,
      List.filterMap_cons_some (show specEntryAt search (r :: rs) cat 0
        = some ⟨cat, firstCell r, r.c1, r.c2⟩ from by
          unfold specEntryAt
          exact if_pos hc),
      List.filterMap_map, hsucc]
    rfl
  · rw [if_neg hc]
    unfold specEntries
    rw [List.length_cons, List.range_succ_eq_map,
      List.filterMap_cons_none (show specEntryAt search (r :: rs) cat 0 = none from by
        unfold specEntryAt
        exact if_neg hc),
      List.filterMap_map, hsucc]
    rfl

/-- C9: for every ordered sequence of price-table rows (and any search
text), the emitted entries are exactly the kept data rows, each carrying as
its one category the first cell of the most recently seen header row above
it in source order (none before the first header); header rows emit no
entry. -/
theorem parseRows_assigns_last_header :
    ∀ (search : String) (rows : List PriceRow),
      parseRows search rows none = specEntries search rows none := by
  have main : ∀ (search : String) (rows : List PriceRow) (cat : Option String),
      parseRows search rows cat = specEntries search rows cat := by
    intro search rows
    induction rows with
    | nil => intro cat; rfl
    | cons r rs ih =>
      intro cat
      rw [specEntries_cons]
      unfold parseRows
      cases hk : classifyRow r with
      | skipped =>
        have hstep : stepCat cat r = cat := by
          unfold stepCat
          rw [hk]
          simp
        rw [ih cat, hstep, if_neg (show ¬(RowKind.skipped = RowKind.data ∧
          searchKeeps search (firstCell r) = true) from fun h => nomatch h.1)]
        simp
      | header =>
        have hstep : stepCat cat r = some (firstCell r) := by
          unfold stepCat
          rw [hk]
          simp
        rw [ih (some (firstCell r)), hstep, if_neg (show ¬(RowKind.header =
          RowKind.data ∧ searchKeeps search (firstCell r) = true) from
            fun h => nomatch h.1)]
        simp
      | data =>
        have hstep : stepCat cat r = cat := by
          unfold stepCat
          rw [hk]
          simp
        by_cases hs : searchKeeps search (firstCell r) = true
        · rw [if_pos hs, ih cat, hstep, if_pos ⟨rfl, hs⟩]
          simp
        · rw [if_neg hs, ih cat, hstep, if_neg (show ¬(RowKind.data =
            RowKind.data ∧ searchKeeps search (firstCell r) = true) from
              fun h => hs h.2)]
          simp
  intro search rows
  exact main search rows none

lemma floatVal_clean_500 : floatVal (cleanCell "£500") = 500 := by
  rw [show cleanCell "£500" = "500" from by decide,
    floatVal_eq_digits "500" 500 (by decide) (by decide)]
  norm_num

lemma floatVal_450 : floatVal "450" = 450 := by
  rw [floatVal_eq_digits "450" 450 (by decide) (by decide)]
  norm_num

/-- C4 counterexample: the price-difference loop emits no record for the
row ("Head MRI", "£500", "From £450") — the Orpington cell contains "From"
and fails the acceptance test — so no difference of 50 (11.1 %) is
computed for it. -/
theorem mri_from_row_yields_no_diff :
    priceDiffRows [("Head MRI", "£500", "From £450")] = Except.ok [] := by decide

/-- C4 (amended): the two rows parse to exactly one entry, categorized
"MRI", with service "Head MRI" and the two raw cells; the Canary-Wharf
cell is Exact 500; the Orpington cell is a From price (the spec parser
reads its trailing amount 450, the code extracts no amount); the
difference table for the row is empty because a difference requires both
locations Exact — had the Orpington cell been the Exact "£450", the
difference would have been 50 with 11.1 %. -/
theorem mri_example_end_to_end :
    parseRows "" [⟨some "MRI", none, none⟩,
        ⟨some "Head MRI", some "£500", some "From £450"⟩] none
      = [⟨some "MRI", "Head MRI", some "£500", some "From £450"⟩] ∧
    parseCell "£500" = Except.ok (some 500) ∧
    parseCell "From £450" = Except.ok none ∧
    specCurrencyParse "From £450" = ⟨PriceQualifier.fromPrice, some 450⟩ ∧
    priceDiffRows [("Head MRI", "£500", "From £450")] = Except.ok [] ∧
    priceDiffRows [("Head MRI", "£500", "£450")] =
      Except.ok [⟨"Head MRI", 500, 450, 50, 111 / 10⟩] := by
  refine ⟨by decide, ?_, by decide, ?_, by decide, ?_⟩
  · have h : parseCell "£500" = Except.ok (some (floatVal (cleanCell "£500"))) := by
      rfl
    rw [h, floatVal_clean_500]
  · have h : specCurrencyParse "From £450" =
        ⟨PriceQualifier.fromPrice, some (floatVal "450")⟩ := by rfl
    rw [h, floatVal_450]
  · have h : priceDiffRows [("Head MRI", "£500", "£450")] =
        Except.ok [⟨"Head MRI", floatVal (cleanCell "£500"),
          floatVal (cleanCell "£450"),
          floatVal (cleanCell "£500") - floatVal (cleanCell "£450"),
          pyRound1 (diffPctOf (floatVal (cleanCell "£500"))
            (floatVal (cleanCell "£450")))⟩] := by rfl
    rw [h, show cleanCell "£450" = "450" from by decide, floatVal_clean_500,
      floatVal_450]
    have hd : diffPctOf (500 : ℚ) 450 = 100 / 9 := by
      rw [diffPctOf, if_pos (by norm_num)]
      norm_num
    have hr : pyRound1 ((100 : ℚ) / 9) = 111 / 10 := by
      unfold pyRound1
      rw [show ((100 : ℚ) / 9 * 10 + 1 / 2) = 2009 / 18 from by norm_num]
      rw [show (⌊(2009 : ℚ) / 18⌋ : ℤ) = 111 from by
        rw [Int.floor_eq_iff]
        constructor <;> norm_num]
      norm_num
    rw [hd, hr]
    norm_num

/-- C3 counterexample: on the column ["£500", "2.2.2"] the mean of the
Exact amounts is 500, but the displayed average is "Varies" because the
second cell is accepted by the digit test and then raises. -/
theorem avg_varies_despite_exact_mean :
    avgDisplayed ["£500", "2.2.2"] = none ∧
      specMean (specExactAmounts ["£500", "2.2.2"]) = some 500 := by
  refine ⟨by decide, ?_⟩
  have h1 : specExactAmounts ["£500", "2.2.2"] = [floatVal (cleanCell "£500")] := by
    unfold specExactAmounts
    simp [show specExact "£500" = true from by decide,
      show specExact "2.2.2" = false from by decide]
  have h5 : floatVal (cleanCell "£500") = 500 := by
    rw [show cleanCell "£500" = "500" from by decide,
      floatVal_eq_digits "500" 500 (by decide) (by decide)]
    norm_num
  rw [h1, h5]
  simp [specMean]

/-- Token occurrences equal the number of rows containing the token, as
long as no single row repeats it. -/
lemma count_flatMap_of_nodup (svc : String) :
    ∀ l : List String, (∀ r ∈ l, (splitTokens r).count svc ≤ 1) →
      (l.flatMap splitTokens).count svc =
        (l.filter (fun r => decide (svc ∈ splitTokens r))).length := by
  intro l
  induction l with
  | nil => intro _; rfl
  | cons a l ih =>
    intro h
    have ha := h a (List.mem_cons_self a l)
    have hl := ih (fun r hr => h r (List.mem_cons_of_mem a hr))
    rw [List.flatMap_cons, List.count_append, hl, List.filter_cons]
    by_cases hmem : svc ∈ splitTokens a
    · have h1 : (splitTokens a).count svc = 1 := by
        have := List.count_pos_iff.mpr hmem
        omega
      rw [h1]
      simp [hmem]
      omega
    · rw [List.count_eq_zero.mpr hmem]
      simp [hmem]

/-- C6 counterexample: a mapped clinician whose raw text "A, A" repeats a
token is counted twice by the coverage computation: with 2 clinicians in
total the displayed Coverage % for "A" is 100.0, while only one clinician's
membership contains "A", which per the claim would give 50.0. -/
theorem coverage_double_counts :
    coveragePct ["A, A"] 2 "A" = 100 ∧
      specClinicianCount ["A, A"] "A" = 1 ∧
      pyRound1 ((1 : ℚ) * 100 / ((2 : ℕ) : ℚ)) = 50 := by
  refine ⟨?_, by decide, ?_⟩
  · unfold coveragePct
    have h2 : ((tokenCount ["A, A"] "A" : ℚ) * 100 / ((2 : ℕ) : ℚ)) = 100 := by
      rw [show tokenCount ["A, A"] "A" = 2 from by decide]
      norm_num
    rw [h2]
    unfold pyRound1
    rw [show ((100 : ℚ) * 10 + 1 / 2) = 2001 / 2 from by norm_num,
      show (⌊(2001 : ℚ) / 2⌋ : ℤ) = 1000 from by
        rw [Int.floor_eq_iff]
        constructor <;> norm_num]
    norm_num
  · unfold pyRound1
    rw [show ((1 : ℚ) * 100 / ((2 : ℕ) : ℚ) * 10 + 1 / 2) = 1001 / 2 from by
      norm_num,
      show (⌊(1001 : ℚ) / 2⌋ : ℤ) = 500 from by
        rw [Int.floor_eq_iff]
        constructor <;> norm_num]
    norm_num

/-- C6 (amended): the Coverage % of a service equals the number of
occurrences of the service token across all mapped clinicians' comma-split
token lists, divided by the total number of clinicians, times 100, rounded
to one decimal; this equals the number of clinicians whose membership
contains the token whenever no clinician's list repeats it — membership
here being exact token equality, and services nobody lists having no
coverage row at all. -/
theorem coverage_counts_occurrences :
    ∀ (rows : List String) (total : ℕ) (service : String),
      (∀ r ∈ mappedRows rows, (splitTokens r).count service ≤ 1) →
      coveragePct rows total service =
        pyRound1 ((specClinicianCount rows service : ℚ) * 100 / (total : ℚ)) := by
  intro rows total service h
  unfold coveragePct tokenCount serviceListAll specClinicianCount
  rw [count_flatMap_of_nodup service (mappedRows rows) h]

/-- Witness for C6 (amended): two clinicians, one mapped to "MRI, CT", one
unmapped, out of 4 clinicians in total. -/
theorem coverage_counts_occurrences_witness :
    coveragePct ["MRI, CT", "No Match"] 4 "MRI" =
      pyRound1 ((specClinicianCount ["MRI, CT", "No Match"] "MRI" : ℚ) * 100 /
        ((4 : ℕ) : ℚ)) :=
  coverage_counts_occurrences ["MRI, CT", "No Match"] 4 "MRI" (by decide)
example : parseCell "£500" = Except.ok (some 500) := by
  have h : floatVal "500" = 500 := by
    rw [floatVal_no_dot "500" (by decide)]
    norm_num [show digitsVal ("500" : String).data = 500 from by decide]
  have h2 : parseCell "£500" = Except.ok (some (floatVal "500")) := by rfl
  rw [h2, h]
